import Mathlib

/-!
Verification of the TTL cache of `rhyspowell/pokedexcli` and of the
network-fetch layer in `src/main.go` that consumes it.

The Go source file implementing the cache (`internal/pokecache/pokecache.go`)
is not present in the repository snapshot — only its test file and its callers
are — so the cache operations below are modelled from the specification text
(its §3 data model and §4 component design).  Time is modelled as explicit
natural-number instants handed to each operation, and each operation is an
atomic transformation of the cache state: this is exactly the linearization
that the spec says the single mutex provides.  The fetch functions
(`fetchLocationAreas`, `fetchLocationAreaDetail`, `fetchPokemon`) are embedded
directly from `src/main.go`.
-/

namespace Pokedex

/-- A byte sequence, the payload type stored by the cache (Go `[]byte`);
each element is one byte value. -/
abbrev ByteSeq := List Nat

/-- Modelled from the spec: `CacheEntry` (§3) — one cached value, holding
`createdAt`, a timestamp captured at insertion time, and `value`, an immutable
byte sequence.  The cache implementation file is missing from the sources. -/
structure CacheEntry where
  createdAt : Nat
  value : ByteSeq
deriving Repr, DecidableEq

/-- Modelled from the spec: the `Cache` object (§3) — a mapping from string
keys to entries (keys unique; a Go map, rendered as a function to `Option`)
together with the fixed `interval` used both as the TTL and as the reaper's
polling period.  The mutex is not a separate field: operations are atomic
state transformations, which is the linearization the lock provides.  The
cache implementation file is missing from the sources. -/
structure Cache where
  entries : String → Option CacheEntry
  interval : Nat

/-- Modelled from the spec: `NewCache(interval)` (§4.1) returns a ready-to-use
cache with empty storage.  The background reaper it starts is modelled by
explicit `Cache.reap` sweeps at scheduled times (multiples of `interval`). -/
def NewCache (interval : Nat) : Cache :=
  { entries := fun _ => none, interval := interval }

/-- Modelled from the spec: `Add(key, value)` (§4.1) inserts or overwrites the
entry for `key` with `createdAt = now`; `now` is the wall-clock instant at
which the call acquires the lock, passed explicitly. -/
def Cache.Add (c : Cache) (key : String) (value : ByteSeq) (now : Nat) : Cache :=
  { c with entries := fun k =>
      if k = key then some { createdAt := now, value := value } else c.entries k }

/-- Modelled from the spec: `Get(key)` (§4.1) returns `(value, found)`;
`some v` stands for `(v, true)` and `none` for `(_, false)`.  `Get` performs
no expiry check: it reads the live map only. -/
def Cache.Get (c : Cache) (key : String) : Option ByteSeq :=
  Option.map CacheEntry.value (c.entries key)

/-- Modelled from the spec: one sweep of the background reaper (`reapLoop`,
§4.1) at instant `now` — deletes every entry whose `now - createdAt` has
reached `interval`, and no younger entry. -/
def Cache.reap (c : Cache) (now : Nat) : Cache :=
  { c with entries := fun k =>
      match c.entries k with
      | none => none
      | some en => if c.interval ≤ now - en.createdAt then none else some en }

/-- A sequence of reaper sweeps at the given instants, in order. -/
def reapAll (c : Cache) (ts : List Nat) : Cache :=
  ts.foldl Cache.reap c

/-- One atomic operation on the cache: an `Add` issued by some caller thread,
or one sweep of the reaper.  A list of these is one interleaving of the
concurrent callers and the reaper, in lock-acquisition order; `Get` is read
only and does not change the state, so it needs no constructor. -/
inductive CacheOp where
  | add (t : Nat) (key : String) (value : ByteSeq)
  | sweep (t : Nat)
deriving Repr, DecidableEq

/-- Runs an interleaving of operations from an initial cache state. -/
def runOps (c : Cache) : List CacheOp → Cache
  | [] => c
  | CacheOp.add t k v :: rest => runOps (c.Add k v t) rest
  | CacheOp.sweep t :: rest => runOps (c.reap t) rest

/-- The outcome of `http.Get` followed by `io.ReadAll` in `src/main.go`:
`none` when the request itself fails, `some (status, none)` when the request
succeeds with the given status code but reading the body fails, and
`some (status, some body)` on full success. -/
abbrev HttpResult := Option (Nat × Option ByteSeq)

/-- `fetchLocationAreas` from `src/main.go` (lines 102-133): check the cache
first and, on a hit, decode the cached bytes without touching the cache; on a
miss, perform the request, read the body, `Add` the raw bytes to the cache,
and only then decode.  `decode` stands for `json.Unmarshal` into
`locationAreaResponse`; `httpGet` stands for the network. -/
def fetchLocationAreas {α : Type} (decode : ByteSeq → Option α)
    (httpGet : String → HttpResult) (c : Cache) (url : String) (now : Nat) :
    Except String α × Cache :=
  match c.Get url with
  | some body =>
    match decode body with
    | some result => (Except.ok result, c)
    | none => (Except.error "error parsing cached JSON", c)
  | none =>
    match httpGet url with
    | none => (Except.error "error fetching location areas", c)
    | some (_, none) => (Except.error "error reading response", c)
    | some (_, some body) =>
      let c1 := c.Add url body now
      match decode body with
      | some result => (Except.ok result, c1)
      | none => (Except.error "error parsing JSON", c1)

/-- The URL built by `fetchLocationAreaDetail` in `src/main.go`. -/
def locationAreaDetailURL (locationAreaName : String) : String :=
  "https://pokeapi.co/api/v2/location-area/" ++ locationAreaName

/-- The URL built by `fetchPokemon` in `src/main.go`. -/
def pokemonURL (pokemonName : String) : String :=
  "https://pokeapi.co/api/v2/pokemon/" ++ pokemonName

/-- `fetchLocationAreaDetail` from `src/main.go` (lines 189-225): cache check,
then the request; a 404 status is turned into the error
`location area not found` before the body is read and before any `Add`;
otherwise the raw body is added to the cache and then decoded. -/
def fetchLocationAreaDetail {α : Type} (decode : ByteSeq → Option α)
    (httpGet : String → HttpResult) (c : Cache) (locationAreaName : String) (now : Nat) :
    Except String α × Cache :=
  let url := locationAreaDetailURL locationAreaName
  match c.Get url with
  | some body =>
    match decode body with
    | some result => (Except.ok result, c)
    | none => (Except.error "error parsing cached JSON", c)
  | none =>
    match httpGet url with
    | none => (Except.error "error fetching location area", c)
    | some (status, rest) =>
      if status = 404 then (Except.error "location area not found", c)
      else
        match rest with
        | none => (Except.error "error reading response", c)
        | some body =>
          let c1 := c.Add url body now
          match decode body with
          | some result => (Except.ok result, c1)
          | none => (Except.error "error parsing JSON", c1)

/-- `fetchPokemon` from `src/main.go` (lines 254-290): cache check, then the
request; a 404 status is turned into the error `Pokemon not found` before the
body is read and before any `Add`; otherwise the raw body is added to the
cache and then decoded. -/
def fetchPokemon {α : Type} (decode : ByteSeq → Option α)
    (httpGet : String → HttpResult) (c : Cache) (pokemonName : String) (now : Nat) :
    Except String α × Cache :=
  let url := pokemonURL pokemonName
  match c.Get url with
  | some body =>
    match decode body with
    | some result => (Except.ok result, c)
    | none => (Except.error "error parsing cached JSON", c)
  | none =>
    match httpGet url with
    | none => (Except.error "error fetching Pokemon", c)
    | some (status, rest) =>
      if status = 404 then (Except.error "Pokemon not found", c)
      else
        match rest with
        | none => (Except.error "error reading response", c)
        | some body =>
          let c1 := c.Add url body now
          match decode body with
          | some result => (Except.ok result, c1)
          | none => (Except.error "error parsing JSON", c1)

/-! Shared lemmas about the cache operations. -/

theorem entries_Add_same (c : Cache) (k : String) (v : ByteSeq) (t : Nat) :
    (c.Add k v t).entries k = some { createdAt := t, value := v } := by
  simp [Cache.Add]

theorem entries_Add_ne (c : Cache) (k key : String) (v : ByteSeq) (t : Nat) (h : k ≠ key) :
    (c.Add key v t).entries k = c.entries k := by
  simp [Cache.Add, h]

theorem interval_Add (c : Cache) (key : String) (v : ByteSeq) (t : Nat) :
    (c.Add key v t).interval = c.interval := rfl

theorem interval_reap (c : Cache) (s : Nat) : (c.reap s).interval = c.interval := rfl

theorem entries_reap_of_none (c : Cache) (s : Nat) (k : String) (h : c.entries k = none) :
    (c.reap s).entries k = none := by
  simp [Cache.reap, h]

theorem entries_reap_keep (c : Cache) (s : Nat) (k : String) (en : CacheEntry)
    (hmem : c.entries k = some en) (hyoung : s - en.createdAt < c.interval) :
    (c.reap s).entries k = some en := by
  simp only [Cache.reap, hmem]
  rw [if_neg (Nat.not_le.mpr hyoung)]

theorem entries_reap_drop (c : Cache) (s : Nat) (k : String) (en : CacheEntry)
    (hmem : c.entries k = some en) (hold : c.interval ≤ s - en.createdAt) :
    (c.reap s).entries k = none := by
  simp only [Cache.reap, hmem]
  rw [if_pos hold]

theorem entries_reap_some (c : Cache) (s : Nat) (k : String) (en : CacheEntry)
    (h : (c.reap s).entries k = some en) : c.entries k = some en := by
  rcases hc : c.entries k with _ | en'
  · simp only [Cache.reap, hc] at h
    exact absurd h (by simp)
  · simp only [Cache.reap, hc] at h
    split at h
    · exact absurd h (by simp)
    · exact h

theorem Get_eq_some_iff (c : Cache) (k : String) (v : ByteSeq) :
    c.Get k = some v ↔ ∃ en, c.entries k = some en ∧ en.value = v := by
  simp [Cache.Get, Option.map_eq_some']

theorem Get_eq_none_iff (c : Cache) (k : String) :
    c.Get k = none ↔ c.entries k = none := by
  simp [Cache.Get]

theorem reapAll_entries_keep (ts : List Nat) (c : Cache) (k : String) (en : CacheEntry)
    (hmem : c.entries k = some en) (h : ∀ s ∈ ts, s - en.createdAt < c.interval) :
    (reapAll c ts).entries k = some en ∧ (reapAll c ts).interval = c.interval := by
  induction ts generalizing c with
  | nil => exact ⟨hmem, rfl⟩
  | cons s rest ih =>
    have hk := entries_reap_keep c s k en hmem (h s (List.mem_cons_self s rest))
    have hrest : ∀ u ∈ rest, u - en.createdAt < (c.reap s).interval := by
      intro u hu
      rw [interval_reap]
      exact h u (List.mem_cons_of_mem s hu)
    have hfold := ih (c.reap s) hk hrest
    exact ⟨hfold.1, hfold.2.trans (interval_reap c s)⟩

theorem runOps_entries_not_added (ops : List CacheOp) (c : Cache) (k : String)
    (hc : c.entries k = none) (h : ∀ t v, CacheOp.add t k v ∉ ops) :
    (runOps c ops).entries k = none := by
  induction ops generalizing c with
  | nil => exact hc
  | cons op rest ih =>
    cases op with
    | add t key v =>
      have hne : k ≠ key := by
        intro he
        exact h t v (by rw [he]; exact List.mem_cons_self _ _)
      refine ih (c.Add key v t) ?_ ?_
      · rw [entries_Add_ne c k key v t hne]
        exact hc
      · intro u w hmem
        exact h u w (List.mem_cons_of_mem _ hmem)
    | sweep t =>
      refine ih (c.reap t) (entries_reap_of_none c t k hc) ?_
      intro u w hmem
      exact h u w (List.mem_cons_of_mem _ hmem)

theorem runOps_Get_some (ops : List CacheOp) (c : Cache) (k : String) (v : ByteSeq)
    (h : (runOps c ops).Get k = some v) :
    (∃ t, CacheOp.add t k v ∈ ops) ∨ c.Get k = some v := by
  induction ops generalizing c with
  | nil => exact Or.inr h
  | cons op rest ih =>
    cases op with
    | add t key w =>
      rcases ih (c.Add key w t) h with ⟨u, hmem⟩ | hget
      · exact Or.inl ⟨u, List.mem_cons_of_mem _ hmem⟩
      · by_cases hk : k = key
        · subst hk
          rcases (Get_eq_some_iff _ _ _).mp hget with ⟨en, hen, hval⟩
          rw [entries_Add_same] at hen
          cases Option.some.inj hen
          refine Or.inl ⟨t, ?_⟩
          rw [← hval]
          exact List.mem_cons_self _ _
        · refine Or.inr ?_
          have hsame : (c.Add key w t).Get k = c.Get k := by
            simp [Cache.Get, entries_Add_ne c k key w t hk]
          rw [hsame] at hget
          exact hget
    | sweep t =>
      rcases ih (c.reap t) h with ⟨u, hmem⟩ | hget
      · exact Or.inl ⟨u, List.mem_cons_of_mem _ hmem⟩
      · rcases (Get_eq_some_iff _ _ _).mp hget with ⟨en, hen, hval⟩
        exact Or.inr ((Get_eq_some_iff _ _ _).mpr ⟨en, entries_reap_some c t k en hen, hval⟩)

theorem exists_sweep_within_interval (a I : Nat) (hI : 0 < I) :
    ∃ j, 1 ≤ j ∧ a + I ≤ I * j ∧ I * j < a + I + I := by
  obtain ⟨q, r, hr, rfl⟩ : ∃ q r, r < I ∧ a = I * q + r :=
    ⟨a / I, a % I, Nat.mod_lt a hI, (Nat.div_add_mod a I).symm⟩
  by_cases h0 : r = 0
  · subst h0
    refine ⟨q + 1, Nat.le_add_left 1 q, ?_, ?_⟩
    · rw [Nat.mul_succ]
      generalize I * q = X
      omega
    · rw [Nat.mul_succ]
      generalize I * q = X
      omega
  · refine ⟨q + 2, by omega, ?_, ?_⟩
    · rw [Nat.mul_add]
      generalize I * q = X
      omega
    · rw [Nat.mul_add]
      generalize I * q = X
      omega

/-! Claim theorems. -/

/-- C1: for every key `k` (including the empty string) and every byte sequence
`v` (including the empty sequence), `Add(k, v)` immediately followed by
`Get(k)` returns `(v, true)` — the exact bytes last stored for that key. -/
theorem add_then_get_roundtrip (c : Cache) (k : String) (v : ByteSeq) (t : Nat) :
    (c.Add k v t).Get k = some v := by
  simp [Cache.Get, entries_Add_same]

/-- C2: a reaper sweep at instant `now` removes an entry if and only if
`now - createdAt >= interval`; some sweep (at a multiple of `interval`) falls
within one full `interval` after the entry's expiry instant and removes the
entry there; and concretely, after `NewCache(100ms)` and `Add("k", "v")` at
time 0, the sweep at 100ms (inside a 150ms sleep) makes `Get("k")` return
`(_, false)`. -/
theorem reaper_exact_threshold_and_bound (c : Cache) (k : String) (en : CacheEntry)
    (now : Nat) (hmem : c.entries k = some en) (hI : 0 < c.interval) :
    ((c.reap now).Get k = none ↔ c.interval ≤ now - en.createdAt)
    ∧ (∃ j, 1 ≤ j ∧ en.createdAt + c.interval ≤ c.interval * j
        ∧ c.interval * j < en.createdAt + c.interval + c.interval
        ∧ (c.reap (c.interval * j)).Get k = none)
    ∧ (((NewCache 100).Add "k" [118] 0).reap 100).Get "k" = none := by
  refine ⟨⟨?_, ?_⟩, ?_, ?_⟩
  · intro h
    rw [Get_eq_none_iff] at h
    by_contra hlt
    rw [entries_reap_keep c now k en hmem (Nat.not_le.mp hlt)] at h
    exact absurd h (by simp)
  · intro h
    rw [Get_eq_none_iff]
    exact entries_reap_drop c now k en hmem h
  · obtain ⟨j, hj1, hj2, hj3⟩ := exists_sweep_within_interval en.createdAt c.interval hI
    have h2 : c.interval + en.createdAt ≤ c.interval * j := by
      rw [Nat.add_comm]
      exact hj2
    refine ⟨j, hj1, hj2, hj3, ?_⟩
    rw [Get_eq_none_iff]
    exact entries_reap_drop c _ k en hmem (Nat.le_sub_of_add_le h2)
  · rfl

/-- Witness for C2 at a concrete cache: entry `"k"` added at time 0 into
`NewCache 100`, examined by a sweep at time 150. -/
theorem reaper_exact_threshold_and_bound_witness :
    (((NewCache 100).Add "k" [118] 0).entries "k" = some { createdAt := 0, value := [118] })
    ∧ (0 < (100 : Nat))
    ∧ (((((NewCache 100).Add "k" [118] 0).reap 150).Get "k" = none ↔ 100 ≤ 150 - 0)
        ∧ (∃ j, 1 ≤ j ∧ 0 + 100 ≤ 100 * j ∧ 100 * j < 0 + 100 + 100
            ∧ (((NewCache 100).Add "k" [118] 0).reap (100 * j)).Get "k" = none)
        ∧ (((NewCache 100).Add "k" [118] 0).reap 100).Get "k" = none) :=
  ⟨rfl, by decide,
    reaper_exact_threshold_and_bound ((NewCache 100).Add "k" [118] 0) "k"
      { createdAt := 0, value := [118] } 150 rfl (by decide)⟩

/-- C3: after `Add(k, v)` at time `t`, any run of reaper sweeps each happening
while less than `interval` has elapsed since `t` leaves the entry in place, so
`Get(k)` still returns `(v, true)`: the reaper never removes an entry younger
than the interval. -/
theorem no_premature_expiry (c : Cache) (k : String) (v : ByteSeq) (t : Nat)
    (ts : List Nat) (h : ∀ s ∈ ts, s - t < c.interval) :
    (reapAll (c.Add k v t) ts).Get k = some v := by
  have hmem := entries_Add_same c k v t
  have h' : ∀ s ∈ ts,
      s - ({ createdAt := t, value := v } : CacheEntry).createdAt < (c.Add k v t).interval := by
    intro s hs
    exact h s hs
  have hkeep := reapAll_entries_keep ts (c.Add k v t) k _ hmem h'
  simp [Cache.Get, hkeep.1]

/-- Witness for C3: `NewCache 100`, `Add "k" [118]` at time 0, sweeps at 50
and 99 — the entry survives. -/
theorem no_premature_expiry_witness :
    (∀ s ∈ [50, 99], s - 0 < (NewCache 100).interval)
    ∧ (reapAll ((NewCache 100).Add "k" [118] 0) [50, 99]).Get "k" = some [118] :=
  ⟨by decide, no_premature_expiry (NewCache 100) "k" [118] 0 [50, 99] (by decide)⟩

/-- C4: `Add(k, v1)` then `Add(k, v2)` fully replaces the entry — the map now
holds exactly `{createdAt := t2, value := v2}` — so `Get(k)` returns
`(v2, true)` and never `v1`, and a sweep at any instant `s` with
`s - t2 < interval` (even one past `t1 + interval`) leaves the entry alive:
the expiry clock restarts at the second `Add`. -/
theorem overwrite_replaces_and_resets_clock (c : Cache) (k : String) (v1 v2 : ByteSeq)
    (t1 t2 s : Nat) (hs : s - t2 < c.interval) :
    ((c.Add k v1 t1).Add k v2 t2).entries k = some { createdAt := t2, value := v2 }
    ∧ ((c.Add k v1 t1).Add k v2 t2).Get k = some v2
    ∧ (((c.Add k v1 t1).Add k v2 t2).reap s).Get k = some v2 := by
  have hmem := entries_Add_same (c.Add k v1 t1) k v2 t2
  have hkeep := entries_reap_keep ((c.Add k v1 t1).Add k v2 t2) s k _ hmem hs
  exact ⟨hmem, by simp [Cache.Get, hmem], by simp [Cache.Get, hkeep]⟩

/-- Witness for C4: second `Add` at time 90, sweep at time 120 — the age
relative to the first `Add` (120) is past the interval (100) but the entry
survives because the clock was reset at 90. -/
theorem overwrite_replaces_and_resets_clock_witness :
    (120 - 90 < (NewCache 100).interval)
    ∧ ((((NewCache 100).Add "k" [1] 0).Add "k" [2] 90).entries "k"
          = some { createdAt := 90, value := [2] }
        ∧ (((NewCache 100).Add "k" [1] 0).Add "k" [2] 90).Get "k" = some [2]
        ∧ ((((NewCache 100).Add "k" [1] 0).Add "k" [2] 90).reap 120).Get "k" = some [2]) :=
  ⟨by decide, overwrite_replaces_and_resets_clock (NewCache 100) "k" [1] [2] 0 90 120 (by decide)⟩

/-- C5: `Get` performs no expiry check: whenever the key is present in the
live entries map, `Get` returns its value with `found = true`, even at an
instant `now` at which the entry is already logically expired
(`interval <= now - createdAt`); removing stale entries is entirely the
reaper's job. -/
theorem get_ignores_expiry (c : Cache) (k : String) (en : CacheEntry) (now : Nat)
    (hmem : c.entries k = some en) (_hexp : c.interval ≤ now - en.createdAt) :
    c.Get k = some en.value := by
  simp [Cache.Get, hmem]

/-- Witness for C5: an entry created at time 0 with interval 100, read at
time 500 — long expired, yet still returned. -/
theorem get_ignores_expiry_witness :
    (((NewCache 100).Add "k" [7] 0).entries "k" = some { createdAt := 0, value := [7] })
    ∧ (100 ≤ 500 - 0)
    ∧ ((NewCache 100).Add "k" [7] 0).Get "k" = some [7] :=
  ⟨rfl, by decide,
    get_ignores_expiry ((NewCache 100).Add "k" [7] 0) "k"
      { createdAt := 0, value := [7] } 500 rfl (by decide)⟩

/-- C6: starting from a freshly constructed cache (whose storage is empty),
after any interleaving of operations in which key `k` is never added, `Get(k)`
returns `(_, false)` — absence is signalled only through the boolean `found`
flag (`none` here), and `Add` is a total function that cannot fail. -/
theorem miss_on_never_added (i : Nat) (ops : List CacheOp) (k : String)
    (h : ∀ t v, CacheOp.add t k v ∉ ops) :
    (runOps (NewCache i) ops).Get k = none := by
  rw [Get_eq_none_iff]
  exact runOps_entries_not_added ops (NewCache i) k rfl h

/-- Witness for C6: a run that adds only the key `"other"` and sweeps once;
`Get "k"` misses.  The empty run on a fresh cache is the `ops = []` case. -/
theorem miss_on_never_added_witness :
    (∀ t v, CacheOp.add t "k" v ∉ [CacheOp.add 0 "other" [1], CacheOp.sweep 5])
    ∧ (runOps (NewCache 5) [CacheOp.add 0 "other" [1], CacheOp.sweep 5]).Get "k" = none :=
  ⟨by intro t v; simp,
    miss_on_never_added 5 [CacheOp.add 0 "other" [1], CacheOp.sweep 5] "k"
      (by intro t v; simp)⟩

/-- C7: pairwise-distinct keys are independent — after adding `k1`, `k2`, `k3`
with values `v1`, `v2`, `v3`, each `Get` returns its own key's value, and the
entry of any fourth key `ko` distinct from all three is left unchanged by the
three `Add`s (`Get` itself is a pure read and changes nothing). -/
theorem multi_key_independence (c : Cache) (k1 k2 k3 ko : String) (v1 v2 v3 : ByteSeq)
    (t1 t2 t3 : Nat) (h12 : k1 ≠ k2) (h13 : k1 ≠ k3) (h23 : k2 ≠ k3)
    (ho1 : ko ≠ k1) (ho2 : ko ≠ k2) (ho3 : ko ≠ k3) :
    (((c.Add k1 v1 t1).Add k2 v2 t2).Add k3 v3 t3).Get k1 = some v1
    ∧ (((c.Add k1 v1 t1).Add k2 v2 t2).Add k3 v3 t3).Get k2 = some v2
    ∧ (((c.Add k1 v1 t1).Add k2 v2 t2).Add k3 v3 t3).Get k3 = some v3
    ∧ (((c.Add k1 v1 t1).Add k2 v2 t2).Add k3 v3 t3).entries ko = c.entries ko := by
  refine ⟨?_, ?_, ?_, ?_⟩
  · simp [Cache.Get, Cache.Add, h12, h13]
  · simp [Cache.Get, Cache.Add, h23]
  · simp [Cache.Get, Cache.Add]
  · simp [Cache.Add, ho1, ho2, ho3]

/-- Witness for C7 on the keys `"a"`, `"b"`, `"c"` with bystander `"d"`. -/
theorem multi_key_independence_witness :
    ("a" ≠ "b") ∧ ("a" ≠ "c") ∧ ("b" ≠ "c")
    ∧ ("d" ≠ "a") ∧ ("d" ≠ "b") ∧ ("d" ≠ "c")
    ∧ ((((NewCache 5).Add "a" [1] 0).Add "b" [2] 1).Add "c" [3] 2).Get "a" = some [1]
    ∧ ((((NewCache 5).Add "a" [1] 0).Add "b" [2] 1).Add "c" [3] 2).Get "b" = some [2]
    ∧ ((((NewCache 5).Add "a" [1] 0).Add "b" [2] 1).Add "c" [3] 2).Get "c" = some [3]
    ∧ ((((NewCache 5).Add "a" [1] 0).Add "b" [2] 1).Add "c" [3] 2).entries "d"
        = (NewCache 5).entries "d" := by
  have h := multi_key_independence (NewCache 5) "a" "b" "c" "d" [1] [2] [3] 0 1 2
    (by decide) (by decide) (by decide) (by decide) (by decide) (by decide)
  exact ⟨by decide, by decide, by decide, by decide, by decide, by decide,
    h.1, h.2.1, h.2.2.1, h.2.2.2⟩

/-- C8: in the linearized model of the lock (every `Add` and every reaper
sweep is one atomic transition, applied in lock-acquisition order), any
interleaving of caller `Add`s and reaper sweeps starting from a fresh cache
yields consistent states only: whenever a `Get` observes `(v, true)` for key
`k`, the exact value `v` was previously passed to `Add` for `k` in that
interleaving — never a corrupted or half-updated entry. -/
theorem concurrent_get_observes_only_added (i : Nat) (ops : List CacheOp)
    (k : String) (v : ByteSeq)
    (h : (runOps (NewCache i) ops).Get k = some v) :
    ∃ t, CacheOp.add t k v ∈ ops := by
  rcases runOps_Get_some ops (NewCache i) k v h with h1 | h2
  · exact h1
  · exact absurd h2 (by simp [Cache.Get, NewCache])

/-- Witness for C8: an interleaving of one `Add` and one sweep in which
`Get "k"` observes `[9]`; the theorem locates the `Add` that produced it. -/
theorem concurrent_get_observes_only_added_witness :
    ((runOps (NewCache 5) [CacheOp.add 3 "k" [9], CacheOp.sweep 4]).Get "k" = some [9])
    ∧ (∃ t, CacheOp.add t "k" [9] ∈ [CacheOp.add 3 "k" [9], CacheOp.sweep 4]) :=
  ⟨rfl, concurrent_get_observes_only_added 5 [CacheOp.add 3 "k" [9], CacheOp.sweep 4]
    "k" [9] rfl⟩

/-- C9: the cache effect of `fetchLocationAreas` — on a cache hit the cache is
returned unchanged; on a miss with a failed request or a failed body read the
cache is returned unchanged (never poisoned with an error value); and only on
a miss with a fully successful fetch is `Add` called, with the raw response
bytes. -/
theorem fetch_repopulates_on_success_only {α : Type} (decode : ByteSeq → Option α)
    (httpGet : String → HttpResult) (c : Cache) (url : String) (now : Nat) :
    (fetchLocationAreas decode httpGet c url now).2 =
      match c.Get url, httpGet url with
      | some _, _ => c
      | none, some (_, some body) => c.Add url body now
      | none, _ => c := by
  rcases hg : c.Get url with _ | body
  · rcases hh : httpGet url with _ | ⟨st, _ | b⟩
    · simp [fetchLocationAreas, hg, hh]
    · simp [fetchLocationAreas, hg, hh]
    · rcases hdec : decode b with _ | r <;> simp [fetchLocationAreas, hg, hh, hdec]
  · rcases hdec : decode body with _ | r <;> simp [fetchLocationAreas, hg, hdec]

/-- C10: on a cache miss, when the HTTP response carries status 404,
`fetchLocationAreaDetail` returns the error `location area not found` and
`fetchPokemon` returns the error `Pokemon not found`, in both cases with the
cache unchanged: the 404 check precedes the body read and any `Add`, so the
404 body (read or unread) is never cached. -/
theorem notfound_leaves_cache_unchanged {α β : Type}
    (decodeD : ByteSeq → Option α) (decodeP : ByteSeq → Option β)
    (httpGet : String → HttpResult) (c : Cache) (dname pname : String) (now : Nat)
    (restD restP : Option ByteSeq)
    (hD : c.Get (locationAreaDetailURL dname) = none)
    (hP : c.Get (pokemonURL pname) = none)
    (hgD : httpGet (locationAreaDetailURL dname) = some (404, restD))
    (hgP : httpGet (pokemonURL pname) = some (404, restP)) :
    fetchLocationAreaDetail decodeD httpGet c dname now
        = (Except.error "location area not found", c)
    ∧ fetchPokemon decodeP httpGet c pname now
        = (Except.error "Pokemon not found", c) := by
  constructor
  · simp [fetchLocationAreaDetail, hD, hgD]
  · simp [fetchPokemon, hP, hgP]

/-- Witness for C10: a network that answers every URL with a 404 carrying
body `[1]`, queried through a fresh cache. -/
theorem notfound_leaves_cache_unchanged_witness :
    ((NewCache 5).Get (locationAreaDetailURL "x") = none)
    ∧ ((NewCache 5).Get (pokemonURL "y") = none)
    ∧ ((fun _ : String => (some (404, some [1]) : HttpResult)) (locationAreaDetailURL "x")
        = some (404, some [1]))
    ∧ (fetchLocationAreaDetail (fun _ => (none : Option Nat))
          (fun _ => some (404, some [1])) (NewCache 5) "x" 0
        = (Except.error "location area not found", NewCache 5)
      ∧ fetchPokemon (fun _ => (none : Option Nat))
          (fun _ => some (404, some [1])) (NewCache 5) "y" 0
        = (Except.error "Pokemon not found", NewCache 5)) :=
  ⟨rfl, rfl, rfl,
    notfound_leaves_cache_unchanged (fun _ => (none : Option Nat)) (fun _ => (none : Option Nat))
      (fun _ => some (404, some [1])) (NewCache 5) "x" "y" 0 (some [1]) (some [1])
      rfl rfl rfl rfl⟩

end Pokedex
